import Mathlib

/-!
Verification of the turn-resolution and attack-selection engine of
`src/sts.py` (classes `Card`, `Deck`, `DrawPile`, `DiscardPile`, `Hand`,
`GameState`).

Modelling conventions:
* Python ints are `ℤ` (energy) or `ℕ` (counters, costs); Python floats are
  modelled exactly as `ℚ` (all literals in the program are small rationals).
* Randomness is the injected capability described by the spec: every stateful
  operation takes a shuffle oracle `sh : List Card → List Card`; theorems that
  need it assume `sh` permutes (or preserves the length of) its argument.
* `list.pop()` pops the LAST element; popping an empty list raises
  `IndexError`, so fallible operations return `Option`.
* Cards are compared by value.  Distinct instances of the same archetype are
  interchangeable for every observable quantity used by the engine, and
  Python's stable `sorted` on instances coincides with the stable insertion
  sort on values used here.
-/

namespace STS

inductive CardType where
  | Attack
  | Skill
deriving DecidableEq, Repr

/-- `Card.__init__` (src/sts.py:10-16). -/
structure Card where
  name : String
  energy : ℕ
  damage : ℚ
  block : ℚ
  vulnerable : ℕ
  type : Option CardType
deriving DecidableEq, Repr

/-- `Card.Strike` (src/sts.py:19-20): cost 1, damage 6, Attack. -/
def Card.Strike : Card := ⟨"Strike", 1, 6, 0, 0, some CardType.Attack⟩

/-- `Card.Defend` (src/sts.py:23-24): cost 1, block 5, Skill. -/
def Card.Defend : Card := ⟨"Defend", 1, 0, 5, 0, some CardType.Skill⟩

/-- `Card.Bash` (src/sts.py:27-28): cost 2, damage 8, vulnerable 2, Attack. -/
def Card.Bash : Card := ⟨"Bash", 2, 8, 0, 2, some CardType.Attack⟩

/-- `Deck` (src/sts.py:34-40): a fixed list of cards. -/
structure Deck where
  cards : List Card
deriving DecidableEq

/-- `Deck.__init__(n_strike, n_defend, n_bash)` (src/sts.py:35-40). -/
def Deck.ofCounts (n_strike n_defend n_bash : ℕ) : Deck :=
  ⟨List.replicate n_strike Card.Strike ++ List.replicate n_defend Card.Defend ++
    List.replicate n_bash Card.Bash⟩

/-- The default deck `Deck()` : 5 Strike, 4 Defend, 1 Bash. -/
def Deck.default : Deck := Deck.ofCounts 5 4 1

/-- The shuffle oracle: `random.shuffle` as an injected capability. -/
abbrev Shuffle := List Card → List Card

/-- `card.type == 'Attack'` (src/sts.py:125,182). -/
def isAttack (c : Card) : Bool :=
  match c.type with
  | some CardType.Attack => true
  | _ => false

/--
`GameState` together with the piles it owns (src/sts.py:55-129).
`hand_cards_played` is `Hand.cards_played`.  `deck` is `self.deck`, which
`GameState.__init__` assigns ONLY when an explicit deck is passed
(src/sts.py:112-115); `none` models the attribute being absent.
The last four fields are the deck statistics precomputed at
src/sts.py:124-129.
-/
structure GameState where
  draw_pile : List Card
  discard_pile : List Card
  hand : List Card
  hand_cards_played : List Card
  energy : ℤ
  vulnerable_turns : ℕ
  turn_count : ℕ
  deck : Option Deck
  total_attacks : ℕ
  avg_attack_damage : ℚ
  deck_size : ℕ
  expected_attacks_per_turn : ℚ
deriving DecidableEq

/-- `GameState.__init__(deck)` (src/sts.py:110-129).  `deckArg = none` is the
`deck=None` default; in that case `self.deck` is never assigned (the
assignment sits in the `else` branch only), which the `deck := deckArg`
field records. -/
def GameState.init (sh : Shuffle) (deckArg : Option Deck) : GameState :=
  let deck := deckArg.getD Deck.default
  let attacks := deck.cards.filter isAttack
  { draw_pile := sh deck.cards
    discard_pile := []
    hand := []
    hand_cards_played := []
    energy := 3
    vulnerable_turns := 0
    turn_count := 0
    deck := deckArg
    total_attacks := attacks.length
    avg_attack_damage :=
      if attacks = [] then 0 else (attacks.map Card.damage).sum / (attacks.length : ℚ)
    deck_size := deck.cards.length
    expected_attacks_per_turn := ((attacks.length : ℚ) / (deck.cards.length : ℚ)) * 5 }

/-- Total number of cards across the three piles. -/
def totalCards (st : GameState) : ℕ :=
  st.draw_pile.length + st.discard_pile.length + st.hand.length

/-- The loop `for i in range(n - len(self.cards)): self.cards.append(self.draw_pile.cards.pop())`
(src/sts.py:96-97).  Pops the last element of the draw pile `k` times;
`none` is the `IndexError` raised by popping an empty list. -/
def popLoop : ℕ → List Card → List Card → Option (List Card × List Card)
  | 0, hand, draw => some (hand, draw)
  | k + 1, hand, draw =>
    match draw.getLast? with
    | none => none
    | some c => popLoop k (hand ++ [c]) draw.dropLast

/-- `Hand.draw(n)` (src/sts.py:91-97), including `DrawPile.pop_all`
(src/sts.py:63-65) and `DrawPile.reshuffle` (src/sts.py:67-70). -/
def GameState.draw (sh : Shuffle) (n : ℕ) (st : GameState) : Option GameState :=
  let st1 :=
    if st.draw_pile.length < n then
      { st with hand := st.hand ++ st.draw_pile
                draw_pile := sh st.discard_pile
                discard_pile := [] }
    else st
  (popLoop (n - st1.hand.length) st1.hand st1.draw_pile).map fun p =>
    { st1 with hand := p.1, draw_pile := p.2 }

/-- Helper for `Hand.play`: find and remove the first card with the given
name, returning it and the remaining hand. -/
def removeFirstByName (nm : String) : List Card → Option (Card × List Card)
  | [] => none
  | c :: cs =>
    if c.name = nm then some (c, cs)
    else (removeFirstByName nm cs).map fun p => (p.1, c :: p.2)

/-- `Hand.play(card_name)` (src/sts.py:99-106) as documented: remove the
first card whose name equals `card_name`, append it to the discard pile and
to `cards_played`; silently do nothing when no card matches. -/
def GameState.play (nm : String) (st : GameState) : GameState :=
  match removeFirstByName nm st.hand with
  | none => st
  | some p =>
    { st with hand := p.2
              discard_pile := st.discard_pile ++ [p.1]
              hand_cards_played := st.hand_cards_played ++ [p.1] }

/-- `Hand.play` as actually invoked by `play_optimal_attacks`
(src/sts.py:240): the caller passes a `Card` object where a name string is
expected, and in Python `card.name == card_object` compares a `str` with a
`Card`, which is `False` for every card (no `__eq__` matching a string is
defined).  The loop therefore matches nothing and the call is a no-op on
hand, discard pile and `cards_played`. -/
def GameState.playCardObject (_c : Card) (st : GameState) : GameState := st

/-- `GameState.end_turn` (src/sts.py:150-153).  Note the source clears
`self.cards_played` on the `GameState` object, a write-only attribute
distinct from `Hand.cards_played`, so `hand_cards_played` is untouched. -/
def GameState.end_turn (st : GameState) : GameState :=
  { st with discard_pile := st.discard_pile ++ st.hand, hand := [] }

/-- `GameState.reset` (src/sts.py:163-164): `self.__init__(self.deck)`.
When the state was built with the default deck, `self.deck` was never
assigned and the attribute access raises `AttributeError` (`none`). -/
def GameState.reset (sh : Shuffle) (st : GameState) : Option GameState :=
  st.deck.map fun d => GameState.init sh (some d)

/-! ## The combo optimizer (src/sts.py:181-248) -/

/-- The sort key of src/sts.py:193-196:
`(-c.vulnerable, -c.damage/c.energy if c.energy > 0 else 0)`. -/
def key (c : Card) : ℚ × ℚ :=
  (-(c.vulnerable : ℚ), if 0 < c.energy then -(c.damage / (c.energy : ℚ)) else 0)

/-- Lexicographic comparison of sort keys.  `List.insertionSort keyLe`
is a stable ascending sort by `key`, exactly Python's `sorted(combo, key=...)`. -/
def keyLe (a b : Card) : Prop :=
  (key a).1 < (key b).1 ∨ ((key a).1 = (key b).1 ∧ (key a).2 ≤ (key b).2)

instance : DecidableRel keyLe := fun a b => by
  unfold keyLe
  exact instDecidableOr

/-- `sorted(combo, key=lambda c: (-c.vulnerable, -c.damage/c.energy if c.energy > 0 else 0))`
(src/sts.py:193-196). -/
def sortCombo (S : List Card) : List Card := List.insertionSort keyLe S

/-- The simulation loop of src/sts.py:204-217 over one sorted combo.
Accumulator `(total_damage, temp_vulnerable, energy_cost, active_vulnerable)`;
the `break` at src/sts.py:205-206 stops the traversal. -/
def simLoop (budget : ℤ) : List Card → ℚ × ℕ × ℤ × Bool → ℚ × ℕ × ℤ × Bool
  | [], acc => acc
  | c :: cs, (d, tv, ec, act) =>
    if budget < ec + (c.energy : ℤ) then (d, tv, ec, act)
    else
      simLoop budget cs
        (d + c.damage * (if act then (1.5 : ℚ) else 1),
         (if 0 < c.vulnerable then tv + c.vulnerable else tv),
         ec + (c.energy : ℤ),
         (if 0 < c.vulnerable then true else act))

/-- The score assigned to one candidate subset `S` (src/sts.py:198-227):
simulate the sorted combo, then
`(total_damage + added_vuln * vuln_value) * (energy_cost / energy)`. -/
def comboScore (vulnValue : ℚ) (budget : ℤ) (v : ℕ) (S : List Card) : ℚ :=
  let r := simLoop budget (sortCombo S) (0, v, 0, decide (0 < v))
  let added : ℤ := max ((r.2.1 : ℤ) - (v : ℤ)) 0
  let future : ℚ := (added : ℚ) * vulnValue
  let util : ℚ := ((r.2.2.1 : ℚ)) / ((budget : ℤ) : ℚ)
  (r.1 + future) * util

/-- `itertools.combinations(l, r)`: all subsequences of `l` of length `r`,
in the order Python yields them. -/
def pyCombinations {α : Type} : List α → ℕ → List (List α)
  | _, 0 => [[]]
  | [], _ + 1 => []
  | a :: l, r + 1 =>
    ((pyCombinations l r).map (fun S => a :: S)) ++ pyCombinations l (r + 1)

/-- `chain(*[combinations(attacks, r) for r in range(1, len(attacks)+1)])`
(src/sts.py:191). -/
def comboCandidates (attacks : List Card) : List (List Card) :=
  (List.range attacks.length).flatMap (fun r => pyCombinations attacks (r + 1))

/-- One iteration of the selection loop (src/sts.py:191-228): keep
`(best_score, best_combo)`, replacing it when the candidate's score is
strictly greater.  Note `best_combo` stores the FULL sorted combo even when
scoring truncated it. -/
def selectStep (vulnValue : ℚ) (budget : ℤ) (v : ℕ) (acc : ℚ × List Card)
    (S : List Card) : ℚ × List Card :=
  if acc.1 < comboScore vulnValue budget v S then (comboScore vulnValue budget v S, sortCombo S)
  else acc

/-- The optimizer's selection phase (`selectCombo` of the spec;
src/sts.py:182-228): fold the selection loop over all candidate subsets
starting from `(0, [])`. -/
def selectCombo (vulnValue : ℚ) (budget : ℤ) (v : ℕ) (attacks : List Card) :
    ℚ × List Card :=
  (comboCandidates attacks).foldl (selectStep vulnValue budget v) (0, [])

/-- The Applying loop of src/sts.py:230-247: play the winning combo.  Each
card is played only if it is in hand and affordable; damage uses the current
`active_vulnerable`; `hand.play(card)` is the no-op `playCardObject`; energy
is deducted and vulnerability granted afterwards. -/
def applyLoop : List Card → ℚ → Bool → GameState → ℚ × GameState
  | [], d, _, st => (d, st)
  | c :: cs, d, act, st =>
    if c ∈ st.hand ∧ (c.energy : ℤ) ≤ st.energy then
      let d1 := d + c.damage * (if act then (1.5 : ℚ) else 1)
      let st1 := GameState.playCardObject c st
      let st2 := { st1 with energy := st1.energy - (c.energy : ℤ) }
      if 0 < c.vulnerable then
        applyLoop cs d1 true { st2 with vulnerable_turns := st2.vulnerable_turns + c.vulnerable }
      else applyLoop cs d1 act st2
    else applyLoop cs d act st

/-- `GameState.play_optimal_attacks` (src/sts.py:181-248): select the best
combo among the attack cards in hand, then apply it, returning
`(final_damage, best_combo)` and the mutated state. -/
def GameState.play_optimal_attacks (st : GameState) : (ℚ × List Card) × GameState :=
  let attacks := st.hand.filter isAttack
  let vuln_value : ℚ := (0.5 : ℚ) * st.avg_attack_damage * st.expected_attacks_per_turn
  let best := selectCombo vuln_value st.energy st.vulnerable_turns attacks
  let r := applyLoop best.2 0 (decide (0 < st.vulnerable_turns)) st
  ((r.1, best.2), r.2)

/-- The vulnerability decay at the end of `simulate_turn` (src/sts.py:176-177). -/
def GameState.decay (st : GameState) : GameState :=
  if 0 < st.vulnerable_turns then { st with vulnerable_turns := st.vulnerable_turns - 1 }
  else st

/-- The start of `simulate_turn` (src/sts.py:167-168): increment the turn
counter and reset energy to 3. -/
def GameState.turnPrep (st : GameState) : GameState :=
  { st with turn_count := st.turn_count + 1, energy := 3 }

/-- `GameState.simulate_turn` (src/sts.py:166-179): prep, draw 5, play the
optimal attacks, sweep the hand, decay vulnerability.  `none` when the draw
raises. -/
def GameState.simulate_turn (sh : Shuffle) (st : GameState) :
    Option ((ℚ × List Card) × GameState) :=
  (GameState.draw sh 5 st.turnPrep).map fun st1 =>
    let r := st1.play_optimal_attacks
    (r.1, (r.2.end_turn).decay)

/-- The loop of `simulate_battle` (src/sts.py:254-257), accumulating the
damage and combo traces. -/
def battleLoop (sh : Shuffle) :
    ℕ → GameState → List ℚ → List (List Card) →
      Option ((List ℚ × List (List Card)) × GameState)
  | 0, st, ds, cs => some ((ds, cs), st)
  | n + 1, st, ds, cs =>
    (st.simulate_turn sh).bind fun r =>
      battleLoop sh n r.2 (ds ++ [r.1.1]) (cs ++ [r.1.2])

/-- `GameState.simulate_battle(num_turns)` (src/sts.py:250-259): zero the
vulnerability counter, then run `num_turns` turns collecting the traces. -/
def GameState.simulate_battle (sh : Shuffle) (n : ℕ) (st : GameState) :
    Option ((List ℚ × List (List Card)) × GameState) :=
  battleLoop sh n { st with vulnerable_turns := 0 } [] []

/-- Summed energy cost of a list of cards. -/
def comboCost (l : List Card) : ℕ := (l.map Card.energy).sum

/-- One step of the operations named by the conservation claim: draw, play,
optimizer application, end_turn, simulate_turn, simulate_battle. -/
inductive Step (sh : Shuffle) : GameState → GameState → Prop
  | draw (n : ℕ) (st st' : GameState) :
      GameState.draw sh n st = some st' → Step sh st st'
  | play (nm : String) (st : GameState) : Step sh st (st.play nm)
  | optimize (st : GameState) : Step sh st st.play_optimal_attacks.2
  | endTurn (st : GameState) : Step sh st st.end_turn
  | turn (st : GameState) (r : ℚ × List Card) (st' : GameState) :
      st.simulate_turn sh = some (r, st') → Step sh st st'
  | battle (n : ℕ) (st : GameState) (r : List ℚ × List (List Card)) (st' : GameState) :
      st.simulate_battle sh n = some (r, st') → Step sh st st'

/-- States reachable from `s₀` by any sequence of the listed operations. -/
def Reachable (sh : Shuffle) : GameState → GameState → Prop :=
  Relation.ReflTransGen (Step sh)

/-! ## Proof-side definitions -/

/-- The effective played list of a combo traversal with running cost `ec`:
the cards kept before the `break` of src/sts.py:205-206 fires. -/
def trunc (budget : ℤ) (ec : ℤ) : List Card → List Card
  | [] => []
  | c :: cs =>
    if budget < ec + (c.energy : ℤ) then [] else c :: trunc budget (ec + (c.energy : ℤ)) cs

/-- The body of the simulation loop without the `break`: folding the damage,
vulnerability, cost and flag updates over an (already truncated) list. -/
def runEval : List Card → ℚ × ℕ × ℤ × Bool → ℚ × ℕ × ℤ × Bool
  | [], acc => acc
  | c :: cs, (d, tv, ec, act) =>
    runEval cs
      (d + c.damage * (if act then (1.5 : ℚ) else 1),
       (if 0 < c.vulnerable then tv + c.vulnerable else tv),
       ec + (c.energy : ℤ),
       (if 0 < c.vulnerable then true else act))

/-- Invariant of the selection fold after all candidate subsets of size at
most `m` have been visited: the best score is non-negative, the stored
best combo is never cut by truncation (hence affordable), and every visited
subset scores at most the best score. -/
def SelInv (vulnValue : ℚ) (budget : ℤ) (v : ℕ) (attacks : List Card) (m : ℕ)
    (acc : ℚ × List Card) : Prop :=
  0 ≤ acc.1 ∧ trunc budget 0 acc.2 = acc.2 ∧
    ∀ T : List Card, T.Sublist attacks → 1 ≤ T.length → T.length ≤ m →
      comboScore vulnValue budget v T ≤ acc.1

/-! ### Spec-shaped scoring (for the refinement claim about the scoring
formula).  These definitions follow the specification's words; the theorem
comparing them with `comboScore` settles the claim. -/

/-- Spec wording: a card contributes `damage * 1.5` exactly when
vulnerability is active (counter positive) at the moment it is played,
counting grants of earlier cards of the same combo; else `damage * 1.0`. -/
def specDamage (tv : ℕ) : List Card → ℚ
  | [] => 0
  | c :: cs => c.damage * (if 0 < tv then (1.5 : ℚ) else 1) + specDamage (tv + c.vulnerable) cs

/-- Spec wording: the vulnerability counter after the combo. -/
def specVulnAfter (v : ℕ) (P : List Card) : ℕ := v + (P.map Card.vulnerable).sum

/-- The Attack-category cards of a deck. -/
def deckAttackCards (d : Deck) : List Card := d.cards.filter isAttack

/-- Spec wording: mean damage over all Attack-category cards in the deck. -/
def averageAttackDamageInDeck (d : Deck) : ℚ :=
  ((deckAttackCards d).map Card.damage).sum / ((deckAttackCards d).length : ℚ)

/-- Spec wording: `(attackCardCount / deckSize) * 5`. -/
def expectedAttacksDrawnPerTurn (d : Deck) : ℚ :=
  (((deckAttackCards d).length : ℚ) / (d.cards.length : ℚ)) * 5

/-- The claim's score formula, written from the spec's words:
`(totalDamage + max(0, vulnAfter - vulnBefore) * 0.5 * avg * ((cnt/size)*5))
  * (energySpent / energyBudget)`, evaluated over the effective played list
of the canonically ordered combo. -/
def specScore (d : Deck) (budget : ℤ) (v : ℕ) (S : List Card) : ℚ :=
  let P := trunc budget 0 (sortCombo S)
  let totalDamage := specDamage v P
  let vulnPerStackValue : ℚ :=
    (0.5 : ℚ) * averageAttackDamageInDeck d * expectedAttacksDrawnPerTurn d
  let futureValue : ℚ := ((max ((specVulnAfter v P : ℤ) - (v : ℤ)) 0 : ℤ) : ℚ) * vulnPerStackValue
  let energySpent : ℤ := (P.map fun c => (c.energy : ℤ)).sum
  (totalDamage + futureValue) * ((energySpent : ℚ) / ((budget : ℤ) : ℚ))

/-! ### Concrete scenario states -/

/-- Shuffle used for the worked scenario: rotate by one, so that with the
default deck the drawn hand is `[Strike, Bash, Defend, Defend, Defend]`. -/
def c6sh : Shuffle := fun l => l.rotate 1

/-- A fresh game on the default deck with the scenario shuffle. -/
def c6init : GameState := GameState.init c6sh none

/-- A state whose hand holds a single Strike (deck statistics of the default
deck, energy 3, no vulnerability): input exhibiting the `hand.play` no-op. -/
def c3state : GameState := { GameState.init id (some Deck.default) with hand := [Card.Strike] }

/-- A state whose whole deck holds 3 cards (1 in draw, 2 in discard, empty
hand): input on which a draw-to-5 attempt raises. -/
def c2state : GameState :=
  { GameState.init id (some ⟨[Card.Strike]⟩) with
      draw_pile := [Card.Strike], discard_pile := [Card.Defend, Card.Defend] }

/-- A deck of five Defend cards (no attacks). -/
def defendDeck : Deck := ⟨List.replicate 5 Card.Defend⟩

/-- A fresh game on the all-Defend deck. -/
def c10state : GameState := GameState.init id (some defendDeck)

/-- The result of a one-turn battle on `c10state` (defined via `getD` so the
hypothesis `simulate_battle … = some c10res` is provable by `rfl`). -/
def c10res : (List ℚ × List (List Card)) × GameState :=
  (c10state.simulate_battle id 1).getD (([], []), c10state)

/-- A fresh game on the default deck with the identity shuffle. -/
def c8state : GameState := GameState.init id none

/-- The state of `c8state` after turn prep and the turn's draw. -/
def c8st1 : GameState := (GameState.draw id 5 c8state.turnPrep).getD c8state

/-! ## Lemmas about the inner scoring loop -/

lemma simLoop_eq_runEval (budget : ℤ) :
    ∀ (l : List Card) (d : ℚ) (tv : ℕ) (ec : ℤ) (act : Bool),
      simLoop budget l (d, tv, ec, act) = runEval (trunc budget ec l) (d, tv, ec, act) := by
  intro l
  induction l with
  | nil => intro d tv ec act; rfl
  | cons c cs ih =>
    intro d tv ec act
    by_cases h : budget < ec + (c.energy : ℤ)
    · simp [simLoop, trunc, h, runEval]
    · simp only [simLoop, trunc, if_neg h]
      rw [ih]
      rfl

lemma trunc_eq_take (budget : ℤ) :
    ∀ (l : List Card) (ec : ℤ), ∃ k, trunc budget ec l = l.take k := by
  intro l
  induction l with
  | nil => intro ec; exact ⟨0, rfl⟩
  | cons c cs ih =>
    intro ec
    by_cases h : budget < ec + (c.energy : ℤ)
    · exact ⟨0, by simp [trunc, h]⟩
    · obtain ⟨k, hk⟩ := ih (ec + (c.energy : ℤ))
      exact ⟨k + 1, by simp [trunc, h, hk]⟩

lemma trunc_idem (budget : ℤ) :
    ∀ (l : List Card) (ec : ℤ), trunc budget ec (trunc budget ec l) = trunc budget ec l := by
  intro l
  induction l with
  | nil => intro ec; rfl
  | cons c cs ih =>
    intro ec
    by_cases h : budget < ec + (c.energy : ℤ)
    · simp [trunc, h]
    · simp [trunc, h, ih]

lemma trunc_full_cost (budget : ℤ) :
    ∀ (l : List Card) (ec : ℤ), trunc budget ec l = l →
      l = [] ∨ ec + (l.map fun c => (c.energy : ℤ)).sum ≤ budget := by
  intro l
  induction l with
  | nil => intro ec _; exact Or.inl rfl
  | cons c cs ih =>
    intro ec h
    by_cases hb : budget < ec + (c.energy : ℤ)
    · simp [trunc, hb] at h
    · right
      simp only [trunc, if_neg hb, List.cons.injEq, true_and] at h
      rcases ih (ec + (c.energy : ℤ)) h with h0 | h1
      · subst h0
        simpa using le_of_not_lt hb
      · simp only [List.map_cons, List.sum_cons]
        linarith

/-! ## Lemmas about the stable sort and the subset enumeration -/

lemma take_orderedInsert (a : Card) :
    ∀ (L : List Card) (k : ℕ),
      (List.orderedInsert keyLe a L).take (k + 1) = List.orderedInsert keyLe a (L.take k) ∨
      (List.orderedInsert keyLe a L).take (k + 1) = L.take (k + 1) := by
  intro L
  induction L with
  | nil => intro k; left; simp [List.orderedInsert]
  | cons b L ih =>
    intro k
    by_cases h : keyLe a b
    · left
      cases k with
      | zero => simp [List.orderedInsert, h]
      | succ k => simp [List.orderedInsert, h]
    · cases k with
      | zero =>
        right
        simp [List.orderedInsert, h]
      | succ k =>
        rcases ih k with h1 | h1
        · left
          simp [List.orderedInsert, h, h1]
        · right
          simp [List.orderedInsert, h, h1]

lemma take_sortCombo :
    ∀ (S : List Card) (k : ℕ), ∃ T, T.Sublist S ∧ (sortCombo S).take k = sortCombo T := by
  intro S
  induction S with
  | nil =>
    intro k
    exact ⟨[], List.Sublist.refl [], by simp [sortCombo, List.insertionSort]⟩
  | cons a S ih =>
    intro k
    cases k with
    | zero => exact ⟨[], List.nil_sublist _, by simp [sortCombo, List.insertionSort]⟩
    | succ k =>
      rcases take_orderedInsert a (List.insertionSort keyLe S) k with h | h
      · obtain ⟨T, hTsub, hTeq⟩ := ih k
        refine ⟨a :: T, List.cons_sublist_cons.mpr hTsub, ?_⟩
        simp only [sortCombo, List.insertionSort] at h hTeq ⊢
        rw [h, hTeq]
      · obtain ⟨T, hTsub, hTeq⟩ := ih (k + 1)
        refine ⟨T, hTsub.cons a, ?_⟩
        simp only [sortCombo, List.insertionSort] at h hTeq ⊢
        rw [h, hTeq]

lemma length_sortCombo (S : List Card) : (sortCombo S).length = S.length :=
  (List.perm_insertionSort keyLe S).length_eq

lemma mem_pyCombinations {α : Type} :
    ∀ (l : List α) (r : ℕ) (S : List α),
      S ∈ pyCombinations l r ↔ S.Sublist l ∧ S.length = r := by
  intro l
  induction l with
  | nil =>
    intro r S
    cases r with
    | zero =>
      simp only [pyCombinations, List.mem_singleton, List.sublist_nil]
      constructor
      · rintro rfl; exact ⟨rfl, rfl⟩
      · rintro ⟨rfl, _⟩; rfl
    | succ r =>
      simp only [pyCombinations, List.not_mem_nil, false_iff, not_and, List.sublist_nil]
      rintro rfl
      simp
  | cons a l ih =>
    intro r S
    cases r with
    | zero =>
      simp only [pyCombinations, List.mem_singleton]
      constructor
      · rintro rfl; exact ⟨List.nil_sublist _, rfl⟩
      · rintro ⟨_, hl⟩; exact List.length_eq_zero.mp hl
    | succ r =>
      simp only [pyCombinations, List.mem_append, List.mem_map]
      constructor
      · rintro (⟨S1, hS1, rfl⟩ | hS)
        · have h := (ih r S1).mp hS1
          exact ⟨List.cons_sublist_cons.mpr h.1, by simp [h.2]⟩
        · have h := (ih (r + 1) S).mp hS
          exact ⟨h.1.cons a, h.2⟩
      · rintro ⟨hsub, hlen⟩
        rcases List.sublist_cons_iff.mp hsub with h | ⟨S1, rfl, hS1⟩
        · exact Or.inr ((ih (r + 1) S).mpr ⟨h, hlen⟩)
        · exact Or.inl ⟨S1, (ih r S1).mpr ⟨hS1, by simpa using hlen⟩, rfl⟩

/-! ## Lemmas about the selection fold -/

lemma comboScore_of_sort_eq_trunc (vv : ℚ) (budget : ℤ) (v : ℕ) {S T : List Card}
    (h : sortCombo T = trunc budget 0 (sortCombo S)) :
    comboScore vv budget v T = comboScore vv budget v S := by
  unfold comboScore
  rw [simLoop_eq_runEval, simLoop_eq_runEval, h, trunc_idem]

lemma comboScore_of_trunc_nil (vv : ℚ) (budget : ℤ) (v : ℕ) {S : List Card}
    (h : trunc budget 0 (sortCombo S) = []) :
    comboScore vv budget v S = 0 := by
  unfold comboScore
  rw [simLoop_eq_runEval, h]
  simp [runEval]

lemma selectStep_block (vv : ℚ) (budget : ℤ) (v : ℕ) (attacks : List Card) (m : ℕ) :
    ∀ (L : List (List Card)),
      (∀ S ∈ L, S.Sublist attacks ∧ S.length = m + 1) →
      ∀ acc, SelInv vv budget v attacks m acc →
        SelInv vv budget v attacks m (L.foldl (selectStep vv budget v) acc) ∧
        acc.1 ≤ (L.foldl (selectStep vv budget v) acc).1 ∧
        ∀ S ∈ L, comboScore vv budget v S ≤ (L.foldl (selectStep vv budget v) acc).1 := by
  intro L
  induction L with
  | nil =>
    intro _ acc hacc
    exact ⟨hacc, le_refl _, by simp⟩
  | cons S L ih =>
    intro hL acc hacc
    obtain ⟨hSsub, hSlen⟩ := hL S (List.mem_cons_self S L)
    have hL1 : ∀ X ∈ L, X.Sublist attacks ∧ X.length = m + 1 :=
      fun X hX => hL X (List.mem_cons_of_mem _ hX)
    by_cases hup : acc.1 < comboScore vv budget v S
    · -- the candidate replaces the stored best; show its sort is never truncated
      have hfull : trunc budget 0 (sortCombo S) = sortCombo S := by
        by_contra hne
        obtain ⟨k, hk⟩ := trunc_eq_take budget (sortCombo S) 0
        obtain ⟨T, hTsub, hTeq⟩ := take_sortCombo S k
        have hTscore : comboScore vv budget v T = comboScore vv budget v S :=
          comboScore_of_sort_eq_trunc vv budget v (by rw [hk, hTeq])
        have hklt : k < (sortCombo S).length := by
          by_contra hge
          exact hne (by rw [hk, List.take_of_length_le (le_of_not_lt hge)])
        have hTlen : T.length = k := by
          have h1 : (sortCombo T).length = k := by
            rw [← hTeq, List.length_take]
            omega
          rw [← length_sortCombo T, h1]
        have hTltS : T.length < S.length := by
          rw [hTlen]
          calc k < (sortCombo S).length := hklt
            _ = S.length := length_sortCombo S
        have hT1 : 1 ≤ T.length := by
          rcases Nat.eq_zero_or_pos T.length with h0 | h1
          · exfalso
            have hTnil : T = [] := List.length_eq_zero.mp h0
            have : trunc budget 0 (sortCombo S) = [] := by
              rw [hk, hTeq, hTnil]
              rfl
            have hz := comboScore_of_trunc_nil vv budget v this
            rw [hz] at hup
            exact absurd hup (not_lt.mpr hacc.1)
          · exact h1
        have hsmall : comboScore vv budget v T ≤ acc.1 :=
          hacc.2.2 T (hTsub.trans hSsub) hT1 (by omega)
        rw [hTscore] at hsmall
        exact absurd hup (not_lt.mpr hsmall)
      have hstep : selectStep vv budget v acc S = (comboScore vv budget v S, sortCombo S) := by
        simp [selectStep, hup]
      have hacc1 : SelInv vv budget v attacks m (comboScore vv budget v S, sortCombo S) := by
        refine ⟨le_trans hacc.1 (le_of_lt hup), hfull, ?_⟩
        intro T hTsub hT1 hTm
        exact le_trans (hacc.2.2 T hTsub hT1 hTm) (le_of_lt hup)
      obtain ⟨hinv, hmono, hsc⟩ := ih hL1 _ hacc1
      rw [List.foldl_cons, hstep]
      refine ⟨hinv, le_trans (le_of_lt hup) hmono, ?_⟩
      intro X hX
      rcases List.mem_cons.mp hX with rfl | hX1
      · exact le_trans (le_refl _) hmono
      · exact hsc X hX1
    · have hstep : selectStep vv budget v acc S = acc := by
        simp [selectStep, hup]
      obtain ⟨hinv, hmono, hsc⟩ := ih hL1 acc hacc
      rw [List.foldl_cons, hstep]
      refine ⟨hinv, hmono, ?_⟩
      intro X hX
      rcases List.mem_cons.mp hX with rfl | hX1
      · exact le_trans (le_of_not_lt hup) hmono
      · exact hsc X hX1

lemma selectFold_inv (vv : ℚ) (budget : ℤ) (v : ℕ) (attacks : List Card) :
    ∀ n : ℕ,
      SelInv vv budget v attacks n
        (((List.range n).flatMap fun r => pyCombinations attacks (r + 1)).foldl
          (selectStep vv budget v) (0, [])) := by
  intro n
  induction n with
  | zero =>
    refine ⟨le_refl 0, rfl, ?_⟩
    intro T _ h1 h0
    omega
  | succ n ih =>
    rw [List.range_succ, List.flatMap_append, List.foldl_append]
    have hsingle : ([n].flatMap fun r => pyCombinations attacks (r + 1)) =
        pyCombinations attacks (n + 1) := by
      simp
    rw [hsingle]
    have hL : ∀ S ∈ pyCombinations attacks (n + 1), S.Sublist attacks ∧ S.length = n + 1 :=
      fun S hS => (mem_pyCombinations attacks (n + 1) S).mp hS
    obtain ⟨hinv, hmono, hsc⟩ := selectStep_block vv budget v attacks n _ hL _ ih
    refine ⟨hinv.1, hinv.2.1, ?_⟩
    intro T hTsub hT1 hTle
    rcases Nat.lt_or_ge T.length (n + 1) with hlt | hge
    · exact hinv.2.2 T hTsub hT1 (by omega)
    · have hTn : T.length = n + 1 := le_antisymm hTle hge
      exact hsc T ((mem_pyCombinations attacks (n + 1) T).mpr ⟨hTsub, hTn⟩)

lemma comboCost_cast (l : List Card) :
    ((comboCost l : ℤ)) = (l.map fun c => (c.energy : ℤ)).sum := by
  unfold comboCost
  rw [Nat.cast_list_sum, List.map_map]
  rfl

lemma selectCombo_cost_le (vv : ℚ) (v : ℕ) (attacks : List Card) :
    comboCost (selectCombo vv 3 v attacks).2 ≤ 3 := by
  have hinv := selectFold_inv vv 3 v attacks attacks.length
  have hsel : (selectCombo vv 3 v attacks).2 =
      (((List.range attacks.length).flatMap fun r => pyCombinations attacks (r + 1)).foldl
        (selectStep vv 3 v) (0, [])).2 := rfl
  rcases trunc_full_cost 3 _ 0 hinv.2.1 with hnil | hsum
  · rw [hsel, hnil]
    simp [comboCost]
  · have h3 : ((comboCost (selectCombo vv 3 v attacks).2 : ℤ)) ≤ 3 := by
      rw [comboCost_cast, hsel]
      linarith
    exact_mod_cast h3

/-! ## The scoring loop versus the spec's formula -/

lemma runEval_eq_spec :
    ∀ (P : List Card) (d : ℚ) (tv : ℕ) (ec : ℤ),
      runEval P (d, tv, ec, decide (0 < tv)) =
        (d + specDamage tv P, tv + (P.map Card.vulnerable).sum,
         ec + (P.map fun c => (c.energy : ℤ)).sum,
         decide (0 < tv + (P.map Card.vulnerable).sum)) := by
  intro P
  induction P with
  | nil => intro d tv ec; simp [runEval, specDamage]
  | cons c cs ih =>
    intro d tv ec
    have hact : (if 0 < c.vulnerable then true else decide (0 < tv)) =
        decide (0 < tv + c.vulnerable) := by
      by_cases h : 0 < c.vulnerable
      · simp only [if_pos h]
        have : 0 < tv + c.vulnerable := by omega
        simp [this]
      · have h0 : c.vulnerable = 0 := by omega
        simp [h, h0]
    have htv : (if 0 < c.vulnerable then tv + c.vulnerable else tv) = tv + c.vulnerable := by
      by_cases h : 0 < c.vulnerable
      · simp [h]
      · have h0 : c.vulnerable = 0 := by omega
        simp [h, h0]
    simp only [runEval, htv, hact, ih, specDamage, List.map_cons, List.sum_cons,
      Prod.mk.injEq, decide_eq_true_eq]
    refine ⟨by ring, by omega, by ring, by simp [Nat.add_assoc]⟩

/-- C5: for every enumerated subset, the optimizer's score equals
`(totalDamage + max(0, vulnAfter - vulnBefore) * 0.5 * averageAttackDamageInDeck
  * ((attackCardCount / deckSize) * 5)) * (energySpentByCombo / energyBudget)`,
with the deck statistics precomputed by `GameState.__init__` from the full
deck, and a card contributing `damage * 1.5` exactly when vulnerability is
active at the moment it is played, else `damage * 1.0`. -/
theorem optimizer_score_eq_spec_formula (sh : Shuffle) (deckArg : Option Deck)
    (h : (deckArg.getD Deck.default).cards.filter isAttack ≠ [])
    (budget : ℤ) (v : ℕ) (S : List Card) :
    comboScore ((0.5 : ℚ) * (GameState.init sh deckArg).avg_attack_damage *
        (GameState.init sh deckArg).expected_attacks_per_turn) budget v S =
      specScore (deckArg.getD Deck.default) budget v S := by
  have havg : (GameState.init sh deckArg).avg_attack_damage =
      averageAttackDamageInDeck (deckArg.getD Deck.default) := by
    simp [GameState.init, averageAttackDamageInDeck, deckAttackCards, h]
  have hexp : (GameState.init sh deckArg).expected_attacks_per_turn =
      expectedAttacksDrawnPerTurn (deckArg.getD Deck.default) := by
    simp [GameState.init, expectedAttacksDrawnPerTurn, deckAttackCards]
  rw [havg, hexp]
  unfold comboScore specScore
  rw [simLoop_eq_runEval, runEval_eq_spec]
  simp only [specVulnAfter, zero_add]

/-- C5 witness: the formula equality instantiated on the default deck for
the singleton Bash subset with budget 3 and no prior vulnerability. -/
theorem optimizer_score_eq_spec_formula_witness :
    ((none : Option Deck).getD Deck.default).cards.filter isAttack ≠ [] ∧
      comboScore ((0.5 : ℚ) * (GameState.init id none).avg_attack_damage *
          (GameState.init id none).expected_attacks_per_turn) 3 0 [Card.Bash] =
        specScore ((none : Option Deck).getD Deck.default) 3 0 [Card.Bash] :=
  ⟨by decide, optimizer_score_eq_spec_formula id none (by decide) 3 0 [Card.Bash]⟩

/-- C1: the combo returned by the optimizer (`play_optimal_attacks`, whose
selection phase is `selectCombo`) has summed energy cost at most the energy
budget of 3, even though scoring internally truncates over-budget subsets:
a strictly-smaller prefix subset with the same score is always enumerated
first, so a truncated subset can never strictly beat it. -/
theorem optimizer_combo_affordable (st : GameState) (h : st.energy = 3) :
    comboCost ((st.play_optimal_attacks).1.2) ≤ 3 := by
  have hrw : (st.play_optimal_attacks).1.2 =
      (selectCombo ((0.5 : ℚ) * st.avg_attack_damage * st.expected_attacks_per_turn)
        st.energy st.vulnerable_turns (st.hand.filter isAttack)).2 := rfl
  rw [hrw, h]
  exact selectCombo_cost_le _ _ _

/-- C1 witness: on a freshly initialised state (energy 3) the returned
combo is affordable. -/
theorem optimizer_combo_affordable_witness :
    (GameState.init id none).energy = 3 ∧
      comboCost (((GameState.init id none).play_optimal_attacks).1.2) ≤ 3 :=
  ⟨rfl, optimizer_combo_affordable (GameState.init id none) rfl⟩

/-! ## Pile bookkeeping lemmas -/

lemma popLoop_count :
    ∀ (k : ℕ) (hand draw h2 d2 : List Card),
      popLoop k hand draw = some (h2, d2) →
      h2.length + d2.length = hand.length + draw.length := by
  intro k
  induction k with
  | zero =>
    intro hand draw h2 d2 h
    simp only [popLoop, Option.some.injEq, Prod.mk.injEq] at h
    rw [← h.1, ← h.2]
  | succ k ih =>
    intro hand draw h2 d2 h
    simp only [popLoop] at h
    cases hd : draw.getLast? with
    | none => rw [hd] at h; exact absurd h (by simp)
    | some c =>
      rw [hd] at h
      have hne : draw ≠ [] := by
        intro h0
        rw [h0] at hd
        simp [List.getLast?] at hd
      have hcount := ih _ _ _ _ h
      have hlen : draw.dropLast.length = draw.length - 1 := List.length_dropLast draw
      have hpos : 1 ≤ draw.length := List.length_pos.mpr hne
      simp only [List.length_append, List.length_singleton] at hcount
      omega

lemma popLoop_some :
    ∀ (k : ℕ) (hand draw : List Card), k ≤ draw.length →
      ∃ h2 d2, popLoop k hand draw = some (h2, d2) ∧
        h2.length = hand.length + k ∧ d2.length = draw.length - k := by
  intro k
  induction k with
  | zero => intro hand draw _; exact ⟨hand, draw, rfl, by omega, by omega⟩
  | succ k ih =>
    intro hand draw hk
    have hne : draw ≠ [] := by
      intro h0
      rw [h0] at hk
      simp at hk
    obtain ⟨c, hc⟩ := Option.isSome_iff_exists.mp (List.getLast?_isSome.mpr hne)
    have hlen : draw.dropLast.length = draw.length - 1 := List.length_dropLast draw
    obtain ⟨h2, d2, hpop, hh2, hd2⟩ := ih (hand ++ [c]) draw.dropLast (by omega)
    refine ⟨h2, d2, ?_, ?_, ?_⟩
    · simp only [popLoop, hc]
      exact hpop
    · rw [hh2]
      simp only [List.length_append, List.length_singleton]
      omega
    · omega

lemma popLoop_none :
    ∀ (k : ℕ) (hand draw : List Card), draw.length < k → popLoop k hand draw = none := by
  intro k
  induction k with
  | zero => intro hand draw h; omega
  | succ k ih =>
    intro hand draw h
    cases hd : draw.getLast? with
    | none => simp only [popLoop, hd]
    | some c =>
      simp only [popLoop, hd]
      have hlen : draw.dropLast.length = draw.length - 1 := List.length_dropLast draw
      have hne : draw ≠ [] := by
        intro h0
        rw [h0] at hd
        simp [List.getLast?] at hd
      have hpos : 1 ≤ draw.length := List.length_pos.mpr hne
      exact ih _ _ (by omega)

/-- Case analysis of `Hand.draw`: the intermediate piles after the optional
reshuffle, the pop loop result, and the shape of the final state. -/
lemma draw_cases (sh : Shuffle) (n : ℕ) (st st' : GameState)
    (h : GameState.draw sh n st = some st') :
    ∃ hand1 draw1 discard1,
      ((st.draw_pile.length < n ∧ hand1 = st.hand ++ st.draw_pile ∧
          draw1 = sh st.discard_pile ∧ discard1 = []) ∨
        (¬ st.draw_pile.length < n ∧ hand1 = st.hand ∧ draw1 = st.draw_pile ∧
          discard1 = st.discard_pile)) ∧
      ∃ p, popLoop (n - hand1.length) hand1 draw1 = some p ∧
        st' = { st with hand := p.1, draw_pile := p.2, discard_pile := discard1 } := by
  by_cases hc : st.draw_pile.length < n
  · refine ⟨st.hand ++ st.draw_pile, sh st.discard_pile, [], Or.inl ⟨hc, rfl, rfl, rfl⟩, ?_⟩
    simp only [GameState.draw, if_pos hc] at h
    obtain ⟨p, hp, hpe⟩ := Option.map_eq_some'.mp h
    exact ⟨p, hp, hpe.symm⟩
  · refine ⟨st.hand, st.draw_pile, st.discard_pile, Or.inr ⟨hc, rfl, rfl, rfl⟩, ?_⟩
    simp only [GameState.draw, if_neg hc] at h
    obtain ⟨p, hp, hpe⟩ := Option.map_eq_some'.mp h
    refine ⟨p, hp, ?_⟩
    rw [← hpe]

lemma draw_total (sh : Shuffle) (hsh : ∀ l, (sh l).length = l.length) (n : ℕ)
    (st st' : GameState) (h : GameState.draw sh n st = some st') :
    totalCards st' = totalCards st := by
  obtain ⟨hand1, draw1, discard1, hcase, p, hp, rfl⟩ := draw_cases sh n st st' h
  have hcount := popLoop_count _ _ _ _ _ hp
  rcases hcase with ⟨_, h1, h2, h3⟩ | ⟨_, h1, h2, h3⟩ <;> subst h1 h2 h3 <;>
    simp only [totalCards, List.length_append, List.length_nil, hsh] at hcount ⊢ <;> omega

lemma draw_frame (sh : Shuffle) (n : ℕ) (st st' : GameState)
    (h : GameState.draw sh n st = some st') :
    st'.energy = st.energy ∧ st'.vulnerable_turns = st.vulnerable_turns ∧
      st'.turn_count = st.turn_count ∧ st'.deck = st.deck ∧
      st'.hand_cards_played = st.hand_cards_played ∧
      st'.avg_attack_damage = st.avg_attack_damage ∧
      st'.expected_attacks_per_turn = st.expected_attacks_per_turn := by
  obtain ⟨hand1, draw1, discard1, hcase, p, hp, rfl⟩ := draw_cases sh n st st' h
  exact ⟨rfl, rfl, rfl, rfl, rfl, rfl, rfl⟩

lemma removeFirst_length (nm : String) :
    ∀ (l : List Card) (c : Card) (rest : List Card),
      removeFirstByName nm l = some (c, rest) → rest.length + 1 = l.length := by
  intro l
  induction l with
  | nil => intro c rest h; simp [removeFirstByName] at h
  | cons a t ih =>
    intro c rest h
    by_cases ha : a.name = nm
    · simp only [removeFirstByName, if_pos ha, Option.some.injEq, Prod.mk.injEq] at h
      rw [← h.2]
      simp
    · simp only [removeFirstByName, if_neg ha, Option.map_eq_some'] at h
      obtain ⟨p, hp, hpe⟩ := h
      have hlen := ih p.1 p.2 (by rw [hp])
      cases hpe
      simp only [List.length_cons]
      omega

lemma play_total (nm : String) (st : GameState) :
    totalCards (st.play nm) = totalCards st := by
  unfold GameState.play
  cases hr : removeFirstByName nm st.hand with
  | none => rfl
  | some p =>
    have hlen := removeFirst_length nm st.hand p.1 p.2 (by rw [hr])
    simp only [totalCards, List.length_append, List.length_singleton]
    omega

lemma play_frame (nm : String) (st : GameState) :
    (st.play nm).energy = st.energy ∧
      (st.play nm).vulnerable_turns = st.vulnerable_turns ∧
      (st.play nm).turn_count = st.turn_count := by
  unfold GameState.play
  cases hr : removeFirstByName nm st.hand with
  | none => exact ⟨rfl, rfl, rfl⟩
  | some p => exact ⟨rfl, rfl, rfl⟩

lemma applyLoop_frame :
    ∀ (l : List Card) (d : ℚ) (act : Bool) (st : GameState),
      (applyLoop l d act st).2.draw_pile = st.draw_pile ∧
      (applyLoop l d act st).2.discard_pile = st.discard_pile ∧
      (applyLoop l d act st).2.hand = st.hand ∧
      (applyLoop l d act st).2.hand_cards_played = st.hand_cards_played ∧
      (applyLoop l d act st).2.turn_count = st.turn_count ∧
      (applyLoop l d act st).2.deck = st.deck := by
  intro l
  induction l with
  | nil => intro d act st; exact ⟨rfl, rfl, rfl, rfl, rfl, rfl⟩
  | cons c cs ih =>
    intro d act st
    by_cases h : c ∈ st.hand ∧ (c.energy : ℤ) ≤ st.energy
    · by_cases hv : 0 < c.vulnerable
      · simp only [applyLoop, if_pos h, if_pos hv, GameState.playCardObject]
        exact ih _ _ _
      · simp only [applyLoop, if_pos h, if_neg hv, GameState.playCardObject]
        exact ih _ _ _
    · simp only [applyLoop, if_neg h]
      exact ih _ _ _

lemma applyLoop_energy :
    ∀ (l : List Card) (d : ℚ) (act : Bool) (st : GameState),
      0 ≤ st.energy → 0 ≤ (applyLoop l d act st).2.energy := by
  intro l
  induction l with
  | nil => intro d act st h; exact h
  | cons c cs ih =>
    intro d act st h
    by_cases hc : c ∈ st.hand ∧ (c.energy : ℤ) ≤ st.energy
    · by_cases hv : 0 < c.vulnerable
      · simp only [applyLoop, if_pos hc, if_pos hv, GameState.playCardObject]
        refine ih _ _ _ ?_
        show (0 : ℤ) ≤ st.energy - (c.energy : ℤ)
        linarith [hc.2]
      · simp only [applyLoop, if_pos hc, if_neg hv, GameState.playCardObject]
        refine ih _ _ _ ?_
        show (0 : ℤ) ≤ st.energy - (c.energy : ℤ)
        linarith [hc.2]
    · simp only [applyLoop, if_neg hc]
      exact ih _ _ _ h

lemma play_optimal_frame (st : GameState) :
    (st.play_optimal_attacks).2.draw_pile = st.draw_pile ∧
      (st.play_optimal_attacks).2.discard_pile = st.discard_pile ∧
      (st.play_optimal_attacks).2.hand = st.hand ∧
      (st.play_optimal_attacks).2.hand_cards_played = st.hand_cards_played ∧
      (st.play_optimal_attacks).2.turn_count = st.turn_count ∧
      (st.play_optimal_attacks).2.deck = st.deck :=
  applyLoop_frame _ _ _ _

lemma play_optimal_total (st : GameState) :
    totalCards (st.play_optimal_attacks).2 = totalCards st := by
  obtain ⟨h1, h2, h3, _⟩ := play_optimal_frame st
  simp [totalCards, h1, h2, h3]

lemma play_optimal_energy (st : GameState) (h : 0 ≤ st.energy) :
    0 ≤ (st.play_optimal_attacks).2.energy :=
  applyLoop_energy _ _ _ _ h

lemma end_turn_total (st : GameState) : totalCards st.end_turn = totalCards st := by
  simp only [GameState.end_turn, totalCards, List.length_append, List.length_nil]
  omega

lemma decay_total (st : GameState) : totalCards st.decay = totalCards st := by
  unfold GameState.decay
  by_cases h : 0 < st.vulnerable_turns
  · rw [if_pos h]
    rfl
  · rw [if_neg h]

lemma decay_energy (st : GameState) : st.decay.energy = st.energy := by
  unfold GameState.decay
  by_cases h : 0 < st.vulnerable_turns
  · rw [if_pos h]
  · rw [if_neg h]

lemma decay_turn_count (st : GameState) : st.decay.turn_count = st.turn_count := by
  unfold GameState.decay
  by_cases h : 0 < st.vulnerable_turns
  · rw [if_pos h]
  · rw [if_neg h]

/-- Decomposition of `simulate_turn` into its phases. -/
lemma simulate_turn_cases (sh : Shuffle) (st : GameState) (r : ℚ × List Card)
    (st' : GameState) (h : st.simulate_turn sh = some (r, st')) :
    ∃ st1, GameState.draw sh 5 st.turnPrep = some st1 ∧
      r = st1.play_optimal_attacks.1 ∧
      st' = ((st1.play_optimal_attacks.2).end_turn).decay := by
  simp only [GameState.simulate_turn] at h
  obtain ⟨st1, h1, h2⟩ := Option.map_eq_some'.mp h
  simp only [Prod.mk.injEq] at h2
  exact ⟨st1, h1, h2.1.symm, h2.2.symm⟩

lemma simulate_turn_total (sh : Shuffle) (hsh : ∀ l, (sh l).length = l.length)
    (st : GameState) (r : ℚ × List Card) (st' : GameState)
    (h : st.simulate_turn sh = some (r, st')) :
    totalCards st' = totalCards st := by
  obtain ⟨st1, h1, _, rfl⟩ := simulate_turn_cases sh st r st' h
  have hd : totalCards st1 = totalCards st.turnPrep := draw_total sh hsh 5 _ _ h1
  calc totalCards (((st1.play_optimal_attacks.2).end_turn).decay)
      = totalCards ((st1.play_optimal_attacks.2).end_turn) := decay_total _
    _ = totalCards (st1.play_optimal_attacks.2) := end_turn_total _
    _ = totalCards st1 := play_optimal_total _
    _ = totalCards st := hd

lemma simulate_turn_energy (sh : Shuffle) (st : GameState) (r : ℚ × List Card)
    (st' : GameState) (h : st.simulate_turn sh = some (r, st')) :
    0 ≤ st'.energy := by
  obtain ⟨st1, h1, _, rfl⟩ := simulate_turn_cases sh st r st' h
  have he1 : st1.energy = 3 := by
    have := (draw_frame sh 5 st.turnPrep st1 h1).1
    rw [this]
    rfl
  rw [decay_energy]
  have : ((st1.play_optimal_attacks.2).end_turn).energy = (st1.play_optimal_attacks.2).energy := rfl
  rw [this]
  exact play_optimal_energy st1 (by rw [he1]; norm_num)

lemma simulate_turn_turn_count (sh : Shuffle) (st : GameState) (r : ℚ × List Card)
    (st' : GameState) (h : st.simulate_turn sh = some (r, st')) :
    st'.turn_count = st.turn_count + 1 := by
  obtain ⟨st1, h1, _, rfl⟩ := simulate_turn_cases sh st r st' h
  have hd : st1.turn_count = st.turn_count + 1 := (draw_frame sh 5 st.turnPrep st1 h1).2.2.1
  rw [decay_turn_count]
  have : ((st1.play_optimal_attacks.2).end_turn).turn_count =
      (st1.play_optimal_attacks.2).turn_count := rfl
  rw [this, (play_optimal_frame st1).2.2.2.2.1, hd]

lemma battleLoop_total (sh : Shuffle) (hsh : ∀ l, (sh l).length = l.length) :
    ∀ (n : ℕ) (st : GameState) (ds : List ℚ) (cs : List (List Card))
      (res : List ℚ × List (List Card)) (st' : GameState),
      battleLoop sh n st ds cs = some (res, st') → totalCards st' = totalCards st := by
  intro n
  induction n with
  | zero =>
    intro st ds cs res st' h
    simp only [battleLoop, Option.some.injEq, Prod.mk.injEq] at h
    rw [← h.2]
  | succ n ih =>
    intro st ds cs res st' h
    simp only [battleLoop] at h
    obtain ⟨⟨r, st1⟩, h1, h2⟩ := Option.bind_eq_some.mp h
    calc totalCards st' = totalCards st1 := ih _ _ _ _ _ h2
      _ = totalCards st := simulate_turn_total sh hsh st r st1 h1

lemma battleLoop_energy (sh : Shuffle) :
    ∀ (n : ℕ) (st : GameState) (ds : List ℚ) (cs : List (List Card))
      (res : List ℚ × List (List Card)) (st' : GameState),
      battleLoop sh n st ds cs = some (res, st') → 0 ≤ st.energy → 0 ≤ st'.energy := by
  intro n
  induction n with
  | zero =>
    intro st ds cs res st' h he
    simp only [battleLoop, Option.some.injEq, Prod.mk.injEq] at h
    rw [← h.2]
    exact he
  | succ n ih =>
    intro st ds cs res st' h _
    simp only [battleLoop] at h
    obtain ⟨⟨r, st1⟩, h1, h2⟩ := Option.bind_eq_some.mp h
    exact ih _ _ _ _ _ h2 (simulate_turn_energy sh st r st1 h1)

lemma battleLoop_lengths (sh : Shuffle) :
    ∀ (n : ℕ) (st : GameState) (ds : List ℚ) (cs : List (List Card))
      (res : List ℚ × List (List Card)) (st' : GameState),
      battleLoop sh n st ds cs = some (res, st') →
      res.1.length = ds.length + n ∧ res.2.length = cs.length + n ∧
        st'.turn_count = st.turn_count + n := by
  intro n
  induction n with
  | zero =>
    intro st ds cs res st' h
    simp only [battleLoop, Option.some.injEq, Prod.mk.injEq] at h
    rw [← h.1, ← h.2]
    exact ⟨rfl, rfl, rfl⟩
  | succ n ih =>
    intro st ds cs res st' h
    simp only [battleLoop] at h
    obtain ⟨⟨r, st1⟩, h1, h2⟩ := Option.bind_eq_some.mp h
    obtain ⟨ha, hb, hcnt⟩ := ih _ _ _ _ _ h2
    have ht := simulate_turn_turn_count sh st r st1 h1
    refine ⟨?_, ?_, ?_⟩
    · rw [ha]; simp only [List.length_append, List.length_singleton]; omega
    · rw [hb]; simp only [List.length_append, List.length_singleton]; omega
    · rw [hcnt, ht]; omega

/-! ## Step preservation and the reachability invariants -/

lemma step_total (sh : Shuffle) (hsh : ∀ l, (sh l).length = l.length)
    {st st' : GameState} (h : Step sh st st') : totalCards st' = totalCards st := by
  cases h with
  | draw n st st' hd => exact draw_total sh hsh n st st' hd
  | play nm st => exact play_total nm st
  | optimize st => exact play_optimal_total st
  | endTurn st => exact end_turn_total st
  | turn st r st' ht => exact simulate_turn_total sh hsh st r st' ht
  | battle n st r st' hb =>
    have := battleLoop_total sh hsh n { st with vulnerable_turns := 0 } [] [] r st' hb
    rw [this]
    rfl

lemma step_energy (sh : Shuffle) {st st' : GameState} (h : Step sh st st')
    (he : 0 ≤ st.energy) : 0 ≤ st'.energy := by
  cases h with
  | draw n st st' hd => rw [(draw_frame sh n st st' hd).1]; exact he
  | play nm st => rw [(play_frame nm st).1]; exact he
  | optimize st => exact play_optimal_energy st he
  | endTurn st => exact he
  | turn st r st' ht => exact simulate_turn_energy sh st r st' ht
  | battle n st r st' hb => exact battleLoop_energy sh n _ [] [] r st' hb he

/-- C4: card conservation is an invariant: every state reachable from a
freshly constructed `GameState` by draw, play, optimizer application,
end_turn, simulate_turn and simulate_battle keeps
`draw + discard + hand = deck size`. -/
theorem card_conservation (sh : Shuffle) (hsh : ∀ l, (sh l).Perm l)
    (deckArg : Option Deck) (st : GameState)
    (h : Reachable sh (GameState.init sh deckArg) st) :
    totalCards st = (deckArg.getD Deck.default).cards.length := by
  have hlen : ∀ l, (sh l).length = l.length := fun l => (hsh l).length_eq
  induction h with
  | refl =>
    simp [totalCards, GameState.init, hlen]
  | tail _ hstep ih =>
    rw [step_total sh hlen hstep]
    exact ih

/-- C4 witness: one end_turn step away from a fresh default-deck game, the
three piles still hold the 10 deck cards. -/
theorem card_conservation_witness :
    totalCards ((GameState.init id none).end_turn) =
      ((none : Option Deck).getD Deck.default).cards.length :=
  card_conservation id (fun l => List.Perm.refl l) none _
    (Relation.ReflTransGen.single (Step.endTurn _))

/-- C9: energy never goes negative: every state reachable by the listed
operations (in particular the state right after the Applying phase, an
`optimize` step) has `energy ≥ 0`; and from any state with non-negative
energy (such as the per-turn budget of 3) the Applying phase keeps
`energy ≥ 0`, since each play is guarded by `energy >= card.energy`. -/
theorem energy_nonneg :
    (∀ (sh : Shuffle) (deckArg : Option Deck) (st : GameState),
      Reachable sh (GameState.init sh deckArg) st → 0 ≤ st.energy) ∧
    (∀ st : GameState, 0 ≤ st.energy → 0 ≤ (st.play_optimal_attacks).2.energy) := by
  constructor
  · intro sh deckArg st h
    induction h with
    | refl => norm_num [GameState.init]
    | tail _ hstep ih => exact step_energy sh hstep ih
  · exact fun st h => play_optimal_energy st h

/-- C9 witness: a fresh game has energy 3 ≥ 0, and applying the optimizer
there keeps energy non-negative. -/
theorem energy_nonneg_witness :
    (0 : ℤ) ≤ (GameState.init id none).energy ∧
      0 ≤ ((GameState.init id none).play_optimal_attacks).2.energy :=
  ⟨energy_nonneg.1 id none _ Relation.ReflTransGen.refl,
    energy_nonneg.2 (GameState.init id none) (by decide)⟩

/-! ## Vulnerability decay, reset, battle frame -/

lemma decay_vuln (st : GameState) :
    ((st.decay).vulnerable_turns : ℤ) = max ((st.vulnerable_turns : ℤ) - 1) 0 := by
  unfold GameState.decay
  by_cases h : 0 < st.vulnerable_turns
  · rw [if_pos h]
    show ((st.vulnerable_turns - 1 : ℕ) : ℤ) = _
    rw [max_eq_left (by omega)]
    omega
  · rw [if_neg h]
    have h0 : st.vulnerable_turns = 0 := by omega
    rw [h0, max_eq_right (by norm_num)]
    norm_num

/-- C8: whenever the turn's draw succeeds, `simulate_turn` completes with
the decay applied exactly once and only after the turn's offense: the state
after the turn is `decay (end_turn afterApplying)`, and the final counter
equals `max 0 (preDecay - 1)` where `preDecay` is the counter's value right
after the turn's combo has been applied. -/
theorem vulnerability_decay (sh : Shuffle) (st st1 : GameState)
    (h1 : GameState.draw sh 5 st.turnPrep = some st1) :
    st.simulate_turn sh = some ((st1.play_optimal_attacks).1,
      ((st1.play_optimal_attacks).2.end_turn).decay) ∧
    ((((st1.play_optimal_attacks).2.end_turn).decay).vulnerable_turns : ℤ) =
      max (((st1.play_optimal_attacks).2.vulnerable_turns : ℤ) - 1) 0 := by
  constructor
  · simp only [GameState.simulate_turn, h1, Option.map_some']
  · exact decay_vuln _

/-- C8 witness: instantiated on a fresh default-deck game with the identity
shuffle, whose turn draw succeeds. -/
theorem vulnerability_decay_witness :
    GameState.draw id 5 c8state.turnPrep = some c8st1 ∧
      (c8state.simulate_turn id = some ((c8st1.play_optimal_attacks).1,
          ((c8st1.play_optimal_attacks).2.end_turn).decay) ∧
        ((((c8st1.play_optimal_attacks).2.end_turn).decay).vulnerable_turns : ℤ) =
          max (((c8st1.play_optimal_attacks).2.vulnerable_turns : ℤ) - 1) 0) :=
  ⟨rfl, vulnerability_decay id c8state c8st1 rfl⟩

/-- C7 counterexample: a GameState constructed with the default deck never
stores `self.deck` (the assignment sits in the `else` branch of
`__init__`), so `reset` fails with `AttributeError` instead of rebuilding
the state — the claim fails for default-constructed states. -/
theorem reset_default_raises :
    (GameState.init id none).deck = none ∧
      GameState.reset id (GameState.init id none) = none :=
  ⟨rfl, rfl⟩

/-- C7 (amended): when the GameState was constructed with an explicit Deck,
`reset` fully reconstructs the state from that deck: the draw pile again
holds all deck cards (shuffled), discard pile and hand are empty, energy is
3, vulnerabilityTurns is 0 and turnCount is 0.  When constructed with the
default deck, the deck was never stored and `reset` raises instead. -/
theorem reset_rebuilds (sh : Shuffle) (hsh : ∀ l, (sh l).Perm l) (st : GameState)
    (d : Deck) (hd : st.deck = some d) :
    GameState.reset sh st = some (GameState.init sh (some d)) ∧
    ((GameState.init sh (some d)).draw_pile).Perm d.cards ∧
    (GameState.init sh (some d)).discard_pile = [] ∧
    (GameState.init sh (some d)).hand = [] ∧
    (GameState.init sh (some d)).energy = 3 ∧
    (GameState.init sh (some d)).vulnerable_turns = 0 ∧
    (GameState.init sh (some d)).turn_count = 0 := by
  refine ⟨?_, ?_, rfl, rfl, rfl, rfl, rfl⟩
  · simp [GameState.reset, hd]
  · exact hsh d.cards

/-- C7 witness: resetting a state built from an explicit default deck. -/
theorem reset_rebuilds_witness :
    GameState.reset id (GameState.init id (some Deck.default)) =
        some (GameState.init id (some Deck.default)) ∧
      ((GameState.init id (some Deck.default)).draw_pile).Perm Deck.default.cards ∧
      (GameState.init id (some Deck.default)).discard_pile = [] ∧
      (GameState.init id (some Deck.default)).hand = [] ∧
      (GameState.init id (some Deck.default)).energy = 3 ∧
      (GameState.init id (some Deck.default)).vulnerable_turns = 0 ∧
      (GameState.init id (some Deck.default)).turn_count = 0 :=
  reset_rebuilds id (fun l => List.Perm.refl l) (GameState.init id (some Deck.default))
    Deck.default rfl

/-- C10: `simulate_battle(n)` resets only the vulnerability counter before
its first turn — the draw pile, discard pile, hand and turn counter keep
their prior values — and on success returns exactly `n` damage entries and
`n` combo entries, with the turn counter accumulating by `n` across the
call. -/
theorem battle_resets_only_vulnerability (sh : Shuffle) (st : GameState) (n : ℕ) :
    st.simulate_battle sh n = battleLoop sh n { st with vulnerable_turns := 0 } [] [] ∧
    ({ st with vulnerable_turns := 0 }.draw_pile = st.draw_pile ∧
      { st with vulnerable_turns := 0 }.discard_pile = st.discard_pile ∧
      { st with vulnerable_turns := 0 }.hand = st.hand ∧
      { st with vulnerable_turns := 0 }.turn_count = st.turn_count ∧
      { st with vulnerable_turns := 0 }.vulnerable_turns = 0) ∧
    ∀ (ds : List ℚ) (cs : List (List Card)) (st' : GameState),
      st.simulate_battle sh n = some ((ds, cs), st') →
      ds.length = n ∧ cs.length = n ∧ st'.turn_count = st.turn_count + n := by
  refine ⟨rfl, ⟨rfl, rfl, rfl, rfl, rfl⟩, ?_⟩
  intro ds cs st' h
  obtain ⟨ha, hb, hcnt⟩ := battleLoop_lengths sh n _ [] [] (ds, cs) st' h
  refine ⟨by simpa using ha, by simpa using hb, ?_⟩
  rw [hcnt]

/-- C10 witness: a one-turn battle on the all-Defend deck. -/
theorem battle_resets_only_vulnerability_witness :
    c10state.simulate_battle id 1 = some ((c10res.1.1, c10res.1.2), c10res.2) ∧
      (c10res.1.1.length = 1 ∧ c10res.1.2.length = 1 ∧
        c10res.2.turn_count = c10state.turn_count + 1) :=
  ⟨rfl, (battle_resets_only_vulnerability id c10state 1).2.2 c10res.1.1 c10res.1.2
    c10res.2 rfl⟩

/-! ## Drawing to five cards -/

/-- C2 counterexample: on a state whose whole deck holds only 3 cards
(1 in the draw pile, 2 in the discard pile, empty hand), a draw-to-5
attempt fails — `IndexError` from popping the emptied draw pile — instead
of ending with `min(5, 3) = 3` cards in hand with no error. -/
theorem draw_short_deck_raises :
    GameState.draw id 5 c2state = none ∧ totalCards c2state = 3 ∧ c2state.hand = [] :=
  ⟨rfl, rfl, rfl⟩

/-- C2 (amended): a draw-to-5 attempt from an empty hand succeeds exactly
when the deck holds at least 5 cards, reshuffling the discard pile into the
draw pile when needed and ending with exactly `min(5, deckTotal) = 5` cards
in hand without changing the total card count; when the deck holds fewer
than 5 cards in total, the draw raises an error rather than drawing what is
available. -/
theorem draw_to_five (sh : Shuffle) (hsh : ∀ l, (sh l).length = l.length)
    (st : GameState) (hh : st.hand = []) :
    (5 ≤ totalCards st →
      (GameState.draw sh 5 st).map (fun s => s.hand.length) = some 5 ∧
      (GameState.draw sh 5 st).map totalCards = some (totalCards st)) ∧
    (totalCards st < 5 → GameState.draw sh 5 st = none) := by
  have htot : totalCards st = st.draw_pile.length + st.discard_pile.length := by
    simp [totalCards, hh]
  by_cases hc : st.draw_pile.length < 5
  · constructor
    · intro h5
      obtain ⟨h2, d2, hpop, hlen1, hlen2⟩ :=
        popLoop_some (5 - (st.hand ++ st.draw_pile).length) (st.hand ++ st.draw_pile)
          (sh st.discard_pile)
          (by simp only [List.length_append, hh, List.length_nil, hsh]; omega)
      have hdraw : GameState.draw sh 5 st =
          some { st with hand := h2, draw_pile := d2, discard_pile := [] } := by
        simp only [GameState.draw, if_pos hc, hpop, Option.map_some']
      rw [hdraw]
      constructor
      · simp only [Option.map_some', Option.some.injEq]
        simp only [List.length_append, hh, List.length_nil] at hlen1
        omega
      · simp only [Option.map_some', Option.some.injEq, totalCards, List.length_nil, hh]
        have hcount := popLoop_count _ _ _ _ _ hpop
        simp only [List.length_append, hh, List.length_nil, hsh] at hcount hlen1 hlen2
        omega
    · intro h5
      have hnone : popLoop (5 - (st.hand ++ st.draw_pile).length) (st.hand ++ st.draw_pile)
          (sh st.discard_pile) = none := by
        apply popLoop_none
        simp only [List.length_append, hh, List.length_nil, hsh]
        omega
      simp only [GameState.draw, if_pos hc, hnone, Option.map_none']
  · constructor
    · intro _
      obtain ⟨h2, d2, hpop, hlen1, hlen2⟩ :=
        popLoop_some (5 - st.hand.length) st.hand st.draw_pile (by rw [hh]; simpa using by omega)
      have hdraw : GameState.draw sh 5 st = some { st with hand := h2, draw_pile := d2 } := by
        simp only [GameState.draw, if_neg hc, hpop, Option.map_some']
      rw [hdraw]
      constructor
      · simp only [Option.map_some', Option.some.injEq]
        simp only [hh, List.length_nil] at hlen1
        omega
      · simp only [Option.map_some', Option.some.injEq, totalCards]
        have hcount := popLoop_count _ _ _ _ _ hpop
        omega
    · intro h5
      omega

/-- C2 witness for the amended claim: drawing 5 from a fresh default-deck
game (10 cards) ends with 5 cards in hand, conserving the pile total. -/
theorem draw_to_five_witness :
    5 ≤ totalCards (GameState.init id none) ∧
      ((GameState.draw id 5 (GameState.init id none)).map (fun s => s.hand.length) = some 5 ∧
        (GameState.draw id 5 (GameState.init id none)).map totalCards =
          some (totalCards (GameState.init id none))) :=
  ⟨by decide, (draw_to_five id (fun l => rfl) (GameState.init id none) rfl).1 (by decide)⟩

/-! ## The Applying phase never moves cards, and the worked scenario -/

/-- C3 (code bug): during the Applying phase, `play_optimal_attacks` calls
`self.hand.play(card)` with a Card object where `Hand.play` expects a name
string (`card.name == card_name` compares a `str` with a `Card`, always
False), so playing a winning-combo card never removes it from the hand,
never appends it to the discard pile and never records it as played.
First part: for every state, hand, discard pile and cards-played record are
unchanged by the Applying phase.  Second part evaluates the code at a
failing input: the winning combo `[Strike]` is in hand and affordable, it
is scored (damage 6) and paid for (energy 3 → 2), yet hand, discard pile
and the cards-played record are untouched. -/
theorem applying_moves_no_cards :
    (∀ st : GameState,
      (st.play_optimal_attacks).2.hand = st.hand ∧
      (st.play_optimal_attacks).2.discard_pile = st.discard_pile ∧
      (st.play_optimal_attacks).2.hand_cards_played = st.hand_cards_played) ∧
    ((c3state.play_optimal_attacks).1.2 = [Card.Strike] ∧
      Card.Strike ∈ c3state.hand ∧ (Card.Strike.energy : ℤ) ≤ c3state.energy ∧
      (c3state.play_optimal_attacks).1.1 = 6 ∧
      (c3state.play_optimal_attacks).2.energy = 2 ∧
      (c3state.play_optimal_attacks).2.hand = [Card.Strike] ∧
      (c3state.play_optimal_attacks).2.discard_pile = [] ∧
      (c3state.play_optimal_attacks).2.hand_cards_played = []) := by
  constructor
  · intro st
    obtain ⟨_, h2, h3, h4, _, _⟩ := play_optimal_frame st
    exact ⟨h3, h2, h4⟩
  · norm_num [c3state, GameState.init, GameState.play_optimal_attacks, selectCombo,
      comboCandidates, pyCombinations, selectStep, comboScore, simLoop, sortCombo,
      List.insertionSort, List.orderedInsert, keyLe, key, applyLoop,
      GameState.playCardObject, Card.Strike, Card.Defend, Card.Bash, Deck.default,
      Deck.ofCounts, isAttack, List.replicate, List.range, List.range.loop,
      List.flatMap, List.flatten, List.foldl, List.filter, List.cons_ne_nil, ne_eq]

set_option maxRecDepth 8000 in
/-- C6: on the default deck (5 Strike cost 1 damage 6, 4 Defend cost 1
block 5, 1 Bash cost 2 damage 8 vulnerable 2) with energy 3 and
vulnerability 0, a turn whose drawn hand holds exactly 1 Strike and 1 Bash
as its attack cards plays the combo `[Bash, Strike]` for 8 + 9 = 17 total
damage (Bash at 1.0x, Strike at 1.5x), with the vulnerability counter 2
after Applying and 1 after Decaying. -/
theorem scenario_bash_strike :
    (GameState.draw c6sh 5 c6init.turnPrep).map (fun s => s.hand) =
      some [Card.Strike, Card.Bash, Card.Defend, Card.Defend, Card.Defend] ∧
    (GameState.draw c6sh 5 c6init.turnPrep).map
        (fun s => (s.play_optimal_attacks.1, s.play_optimal_attacks.2.vulnerable_turns)) =
      some ((17, [Card.Bash, Card.Strike]), 2) ∧
    (c6init.simulate_turn c6sh).map (fun r => (r.1, r.2.vulnerable_turns)) =
      some ((17, [Card.Bash, Card.Strike]), 1) := by
  refine ⟨?_, ?_, ?_⟩ <;>
    norm_num [c6init, c6sh, GameState.simulate_turn, GameState.init, GameState.turnPrep,
      GameState.draw, popLoop, GameState.play_optimal_attacks, selectCombo,
      comboCandidates, pyCombinations, selectStep, comboScore, simLoop, sortCombo,
      List.insertionSort, List.orderedInsert, keyLe, key, applyLoop,
      GameState.playCardObject, GameState.end_turn, GameState.decay, Card.Strike,
      Card.Defend, Card.Bash, Deck.default, Deck.ofCounts, isAttack, List.rotate,
      List.replicate, List.range, List.range.loop, List.flatMap, List.flatten,
      List.foldl, List.filter, List.cons_ne_nil, ne_eq]

end STS
